import Mathlib

/-!
Verification of the workflow execution engine of the agent-mindmap repository.

The definitions below are a shallow embedding of the TypeScript source:
* `agentTools`, `executeTool` embed `src/lib/agent-tools.ts` (`agentTools`,
  `executeTool`).  Tool bodies perform external effects (network, `eval`,
  randomness), so the body of a registered tool is abstracted as an oracle
  parameter `impl`; `executeTool` keeps the registry lookup and the
  `Tool ... not found` failure exactly as in the source.
* `callLLM` embeds `AgentOrchestrator.callLLM` (agent-orchestrator module).
  The language model is an external collaborator, so one execution is driven
  by a finite `script` of model responses, one response per `openai.chat.
  completions.create` call; an exhausted script stands for a transport
  failure of the next call.  `ModelResponse.failure` models the call
  throwing.
* `executeNode` / `executeWorkflow` embed the recursive graph walk of
  `AgentOrchestrator`.  JavaScript's `Date.now()` / `Math.random()` step ids
  are modelled deterministically from the step index (their values are never
  inspected by the engine).  The mutable `this.state` is threaded explicitly,
  and every `onUpdate` callback is recorded as a snapshot (the route
  serializes each snapshot synchronously, so a snapshot is the state value
  at the moment of the call).
* `executeAgentRoute` embeds the SSE event production of the
  `execute-agent` route (`src/unnamed/part_000`, second document).
* `normalizeNodes`, `validateEdges`, `fallbackEdges`,
  `generateWorkflowEdges` embed the post-parse validation of the
  `generate-workflow` route (`src/unnamed/part_000`, first document).
-/

/-! ### Graph data model -/

structure Node where
  id : String
  label : String
  description : String
  content : String
deriving DecidableEq, Repr

structure Edge where
  id : String
  source : String
  target : String
  etype : String
deriving DecidableEq, Repr

/-! ### Tool registry (src/lib/agent-tools.ts) -/

structure AgentTool where
  name : String
  description : String
deriving DecidableEq, Repr

def agentTools : List AgentTool :=
  [ { name := "web_search"
      description := "Search the web for information. Use this when you need current information or facts." },
    { name := "calculate"
      description := "Perform mathematical calculations. Supports basic arithmetic and complex expressions." },
    { name := "get_weather"
      description := "Get current weather information for a location." },
    { name := "send_email"
      description := "Send an email to a recipient. Use this for notifications or communications." },
    { name := "create_calendar_event"
      description := "Create a calendar event or reminder." },
    { name := "analyze_sentiment"
      description := "Analyze the sentiment of text (positive, negative, or neutral)." } ]

/-- Oracle for the external behaviour of a registered tool body: given the
tool name and the (serialized) arguments it returns the serialized result, or
an error when the body throws (e.g. on arguments of the wrong shape). -/
def ToolImpl : Type := String → String → Except String String

/-- Embeds `executeTool`: look the tool up by name, throw
`Tool <name> not found` when missing, otherwise run the body. -/
def executeTool (impl : ToolImpl) (toolName : String) (args : String) :
    Except String String :=
  match agentTools.find? (fun t => t.name == toolName) with
  | none => Except.error ("Tool " ++ toolName ++ " not found")
  | some _ => impl toolName args

/-! ### Model gateway oracle -/

structure ToolCallRequest where
  id : String
  name : String
  arguments : String
deriving DecidableEq, Repr

/-- One response of `openai.chat.completions.create`: either an assistant
message (optional text content plus a possibly empty list of tool-call
requests), or the call throwing. -/
inductive ModelResponse where
  | msg (content : Option String) (tool_calls : List ToolCallRequest)
  | failure (err : String)
deriving DecidableEq, Repr

/-- The scripted responses consumed by one `callLLM` invocation. -/
def ModelScript : Type := List ModelResponse

inductive ChatMessage where
  | system (content : String)
  | user (content : String)
  | assistant (content : Option String) (tool_calls : List ToolCallRequest)
  | tool (tool_call_id : String) (content : String)
deriving DecidableEq, Repr

structure ToolCallEntry where
  name : String
  arguments : String
  result : String
deriving DecidableEq, Repr

/-- JavaScript `x || d` on an optional string: `undefined` and `""` are
falsy. -/
def orDefault : Option String → String → String
  | some s, d => if s = "" then d else s
  | none, d => d

def noResponseSentinel : String := "No response generated"

def modelCallFailed : String := "Model call failed"

/-- `JSON.stringify({ error: 'Tool execution failed' })`, the fixed
tool-result content fed back on a failed tool call. -/
def toolFailureContent : String := "\x7b\"error\":\"Tool execution failed\"\x7d"

def systemPrompt : String :=
  "You are an AI agent executing a workflow. Process each step carefully and use tools when appropriate."

/-- Embeds the `for (const toolCall of assistantMessage.tool_calls)` body of
`callLLM`: on success the entry is pushed to the step's tool-call log and the
result becomes a tool message; on failure only a synthetic error tool message
is pushed. -/
def processToolCalls (impl : ToolImpl) :
    List ToolCallRequest → List ChatMessage → List ToolCallEntry →
    List ChatMessage × List ToolCallEntry
  | [], msgs, tcs => (msgs, tcs)
  | req :: rest, msgs, tcs =>
    match executeTool impl req.name req.arguments with
    | Except.ok r =>
      processToolCalls impl rest (msgs ++ [ChatMessage.tool req.id r])
        (tcs ++ [{ name := req.name, arguments := req.arguments, result := r }])
    | Except.error _ =>
      processToolCalls impl rest (msgs ++ [ChatMessage.tool req.id toolFailureContent]) tcs

structure LLMResult where
  content : String
  toolCalls : List ToolCallEntry
  messages : List ChatMessage
  callsUsed : Nat
deriving DecidableEq, Repr

/-- The `while (assistantMessage.tool_calls && ...)` loop of `callLLM`.  Each
script element is the response of one model call; the loop returns when a
response carries no tool-call requests, keeps consuming otherwise. -/
def callLLMGo (impl : ToolImpl) :
    List ModelResponse → List ChatMessage → List ToolCallEntry → Nat →
    Except String LLMResult
  | [], _, _, _ => Except.error modelCallFailed
  | ModelResponse.failure e :: _, _, _, _ => Except.error e
  | ModelResponse.msg content reqs :: rest, msgs, tcs, n =>
    if reqs.isEmpty then
      Except.ok { content := orDefault content noResponseSentinel
                  toolCalls := tcs
                  messages := msgs
                  callsUsed := n + 1 }
    else
      let step1 := processToolCalls impl reqs (msgs ++ [ChatMessage.assistant content reqs]) tcs
      callLLMGo impl rest step1.1 step1.2 (n + 1)

/-- Embeds `callLLM`: system message, user prompt, then the interaction
loop. -/
def callLLM (impl : ToolImpl) (script : ModelScript) (prompt : String) :
    Except String LLMResult :=
  callLLMGo impl script [ChatMessage.system systemPrompt, ChatMessage.user prompt] [] 0

/-- Embeds `buildNodePrompt` (the trimmed template literal). -/
def buildNodePrompt (node : Node) (input : String) : String :=
  "You are executing a step in an AI agent workflow.\n\n**Current Node**: " ++ node.label ++
  "\n**Node Description**: " ++ node.description ++
  "\n**Node Purpose**: " ++ node.content ++
  "\n\n**Input from Previous Step**: " ++ input ++
  "\n\nPlease process this input according to the node's purpose and provide the output for the next step.\nIf you need to use any tools, use them appropriately."

/-! ### Execution state (AgentStep / AgentExecutionState) -/

inductive StepStatus where
  | pending
  | running
  | completed
  | error
deriving DecidableEq, Repr

inductive ExecStatus where
  | initializing
  | running
  | completed
  | error
deriving DecidableEq, Repr

structure AgentStep where
  id : String
  nodeId : String
  nodeName : String
  status : StepStatus
  input : Option String
  output : Option String
  toolCalls : Option (List ToolCallEntry)
  timestamp : Nat
  error : Option String
deriving DecidableEq, Repr

structure AgentExecutionState where
  executionId : String
  status : ExecStatus
  steps : List AgentStep
  currentNode : Option String
  finalOutput : Option String
  error : Option String
deriving DecidableEq, Repr

/-- The run's mutable state together with the sequence of snapshots already
delivered through `onUpdate` (in delivery order). -/
structure RunAcc where
  state : AgentExecutionState
  snaps : List AgentExecutionState
deriving DecidableEq, Repr

def initialState (executionId : String) : AgentExecutionState :=
  { executionId := executionId
    status := ExecStatus.initializing
    steps := []
    currentNode := none
    finalOutput := none
    error := none }

/-- The `AgentStep` created at the top of `executeNode`.  The source id is
`step_${Date.now()}_${random}` and the timestamp `Date.now()`; both are
external values never read back by the engine, modelled deterministically
from the step index. -/
def mkStep (idx : Nat) (node : Node) (input : String) : AgentStep :=
  { id := "step_" ++ toString idx
    nodeId := node.id
    nodeName := node.label
    status := StepStatus.running
    input := some input
    output := none
    toolCalls := none
    timestamp := idx
    error := none }

/-- `this.state.currentNode = node.id; this.state.steps.push(step);
onUpdate?.(this.state)`. -/
def pushStep (acc : RunAcc) (node : Node) (input : String) : RunAcc :=
  let st := { acc.state with
                currentNode := some node.id
                steps := acc.state.steps ++ [mkStep acc.state.steps.length node input] }
  { state := st, snaps := acc.snaps ++ [st] }

/-- `step.output = ...; step.toolCalls = ...; step.status = 'completed'`. -/
def stepDone (s : AgentStep) (content : String) (tcs : List ToolCallEntry) : AgentStep :=
  { s with output := some content, toolCalls := some tcs, status := StepStatus.completed }

/-- `step.status = 'error'; step.error = ...`. -/
def stepErrored (s : AgentStep) (e : String) : AgentStep :=
  { s with status := StepStatus.error, error := some e }

/-- In-place completion of the step at index `idx`, followed by
`onUpdate?.(this.state)`. -/
def markStepCompleted (acc : RunAcc) (idx : Nat) (content : String)
    (tcs : List ToolCallEntry) : RunAcc :=
  match acc.state.steps.get? idx with
  | some s =>
    let st := { acc.state with steps := acc.state.steps.set idx (stepDone s content tcs) }
    { state := st, snaps := acc.snaps ++ [st] }
  | none => acc

/-- The `catch` block of `executeNode`: in-place error-marking of the step at
index `idx`, followed by `onUpdate?.(this.state)`. -/
def markStepError (acc : RunAcc) (idx : Nat) (e : String) : RunAcc :=
  match acc.state.steps.get? idx with
  | some s =>
    let st := { acc.state with steps := acc.state.steps.set idx (stepErrored s e) }
    { state := st, snaps := acc.snaps ++ [st] }
  | none => acc

/-- Embeds the recursive `executeNode`.  The scripts list supplies, in step
order, the model responses of each step's `callLLM` invocation; an exhausted
list models the next model call failing.  Returns the updated run state and
either the step chain's output or the propagated error. -/
def executeNode (impl : ToolImpl) (nodes : List Node) (edges : List Edge) :
    List ModelScript → Node → String → RunAcc → RunAcc × Except String String
  | [], node, input, acc0 =>
    let idx := acc0.state.steps.length
    let acc := pushStep acc0 node input
    (markStepError acc idx modelCallFailed, Except.error modelCallFailed)
  | script :: restScripts, node, input, acc0 =>
    let idx := acc0.state.steps.length
    let acc := pushStep acc0 node input
    match callLLM impl script (buildNodePrompt node input) with
    | Except.error e => (markStepError acc idx e, Except.error e)
    | Except.ok r =>
      let acc1 := markStepCompleted acc idx r.content r.toolCalls
      match edges.filter (fun e => e.source == node.id) with
      | [] =>
        let st := { acc1.state with finalOutput := some r.content }
        ({ acc1 with state := st }, Except.ok r.content)
      | nextEdge :: _ =>
        match nodes.find? (fun n => n.id == nextEdge.target) with
        | none => (acc1, Except.ok r.content)
        | some nextNode =>
          match executeNode impl nodes edges restScripts nextNode r.content acc1 with
          | (acc2, Except.ok out) => (acc2, Except.ok out)
          | (acc2, Except.error e) => (markStepError acc2 idx e, Except.error e)

def noStartMsg : String := "No starting node found in workflow"

/-- Embeds `executeWorkflow`: mark running, find the entry node (the first
node that is the target of no edge), run the chain, then mark completed, or
on any failure mark the state `error` and rethrow. -/
def executeWorkflow (impl : ToolImpl) (scripts : List ModelScript)
    (userInput : String) (nodes : List Node) (edges : List Edge)
    (executionId : String) : RunAcc × Except String String :=
  let st0 := { initialState executionId with status := ExecStatus.running }
  let acc : RunAcc := { state := st0, snaps := [st0] }
  match nodes.find? (fun node => !(edges.any (fun e => e.target == node.id))) with
  | none =>
    let st := { acc.state with status := ExecStatus.error, error := some noStartMsg }
    ({ state := st, snaps := acc.snaps ++ [st] }, Except.error noStartMsg)
  | some startNode =>
    match executeNode impl nodes edges scripts startNode userInput acc with
    | (acc1, Except.ok out) =>
      let st := { acc1.state with status := ExecStatus.completed }
      ({ state := st, snaps := acc1.snaps ++ [st] }, Except.ok out)
    | (acc1, Except.error e) =>
      let st := { acc1.state with status := ExecStatus.error, error := some e }
      ({ state := st, snaps := acc1.snaps ++ [st] }, Except.error e)

/-! ### The execute-agent route (SSE event stream) -/

/-- One `data: ...` SSE event of the execute-agent route: an intermediate
snapshot (no `done` field), the final snapshot spread with `done: true`, or
the catch-branch event `{ error, done: true }`. -/
inductive SSEEvent where
  | update (state : AgentExecutionState)
  | final (state : AgentExecutionState)
  | errorEvent (error : String)
deriving DecidableEq, Repr

def eventDone : SSEEvent → Bool
  | SSEEvent.update _ => false
  | SSEEvent.final _ => true
  | SSEEvent.errorEvent _ => true

/-- Embeds the `start(controller)` body of the execute-agent route: every
`onUpdate` snapshot is enqueued in order, then either the final state with
`done: true` or, when `executeWorkflow` rejected, `{ error, done: true }`. -/
def executeAgentRoute (impl : ToolImpl) (scripts : List ModelScript)
    (userInput : String) (nodes : List Node) (edges : List Edge)
    (executionId : String) : List SSEEvent :=
  match executeWorkflow impl scripts userInput nodes edges executionId with
  | (acc, Except.ok _) => acc.snaps.map SSEEvent.update ++ [SSEEvent.final acc.state]
  | (acc, Except.error e) => acc.snaps.map SSEEvent.update ++ [SSEEvent.errorEvent e]

/-- A default tool-body oracle used to instantiate runs on concrete inputs. -/
def defaultImpl : ToolImpl := fun n _ => Except.ok ("result of " ++ n)

/-! ### The generate-workflow route (node/edge validation) -/

/-- A node as parsed from the model's JSON, fields possibly missing. -/
structure RawWorkflowNode where
  id : Option String
  position : Option (Int × Int)
  label : Option String
  description : Option String
  handles : Option (Bool × Bool)
  content : Option String
  footer : Option String
deriving DecidableEq, Repr

/-- A node of the route's response after normalization. -/
structure GenNode where
  id : String
  position : Int × Int
  label : String
  description : String
  handles : Bool × Bool
  content : String
  footer : String
deriving DecidableEq, Repr

/-- An edge as parsed from the model's JSON. -/
structure RawWorkflowEdge where
  id : Option String
  source : String
  target : String
  etype : Option String
deriving DecidableEq, Repr

/-- An edge of the route's response. -/
structure GenEdge where
  id : String
  source : String
  target : String
  etype : String
deriving DecidableEq, Repr

/-- Embeds `workflow.nodes = workflow.nodes.map((node, index) => ...)`,
filling in the defaults of the generate-workflow route. -/
def normalizeNodes (raw : List RawWorkflowNode) : List GenNode :=
  raw.enum.map (fun p =>
    { id := orDefault p.2.id ("node_" ++ toString p.1)
      position := p.2.position.getD (Int.ofNat p.1 * 400, 0)
      label := orDefault p.2.label ("Node " ++ toString (p.1 + 1))
      description := orDefault p.2.description "Processing step"
      handles := p.2.handles.getD (decide (0 < p.1), decide (p.1 < raw.length - 1))
      content := orDefault p.2.content "Processing data"
      footer := orDefault p.2.footer "Agent step" })

/-- Embeds the edge filter-and-normalize of the route: keep only edges whose
source and target are valid node ids, then fill defaults (indices are the
positions in the filtered list, as in `.filter(...).map((edge, index) =>
...)`). -/
def validateEdges (nodeIds : List String) (rawEdges : List RawWorkflowEdge) :
    List GenEdge :=
  (rawEdges.filter (fun e => nodeIds.contains e.source && nodeIds.contains e.target)).enum.map
    (fun p =>
      { id := orDefault p.2.id ("e" ++ toString (p.1 + 1))
        source := p.2.source
        target := p.2.target
        etype := orDefault p.2.etype "animated" })

/-- Embeds the fallback `workflow.nodes.slice(0, -1).map((node, index) =>
...)`: a sequential chain connecting consecutive nodes. -/
def fallbackEdges (nodes : List GenNode) : List GenEdge :=
  (nodes.zip nodes.tail).enum.map (fun p =>
    { id := "e" ++ toString (p.1 + 1)
      source := p.2.1.id
      target := p.2.2.id
      etype := "animated" })

/-- The edge list the generate-workflow route responds with. -/
def generateWorkflowEdges (nodes : List GenNode) (rawEdges : List RawWorkflowEdge) :
    List GenEdge :=
  let valid := validateEdges (nodes.map GenNode.id) rawEdges
  if valid.isEmpty && decide (1 < nodes.length) then fallbackEdges nodes else valid

/-- The (nodes, edges) pair of a successful generate-workflow response. -/
def generateWorkflowResponse (rawNodes : List RawWorkflowNode)
    (rawEdges : List RawWorkflowEdge) : List GenNode × List GenEdge :=
  let nodes := normalizeNodes rawNodes
  (nodes, generateWorkflowEdges nodes rawEdges)

/-- The state value after the `catch` block error-marks the step at position
`pre.length`. -/
def errorSnap (st : AgentExecutionState) (pre : List AgentStep) (s : AgentStep)
    (t : List AgentStep) (e : String) : AgentExecutionState :=
  { st with steps := pre ++ stepErrored s e :: t }

def nextRel (edges : List Edge) (s t : AgentStep) : Prop :=
  ∃ ed r, edges.filter (fun e => e.source == s.nodeId) = ed :: r ∧ t.nodeId = ed.target

def NodeRunSpec (impl : ToolImpl) (nodes : List Node) (edges : List Edge)
    (scripts : List ModelScript) (node : Node) (input : String) (acc : RunAcc) : Prop :=
  let out := executeNode impl nodes edges scripts node input acc
  ∃ tail snew,
    out.1.state.steps = acc.state.steps ++ tail ∧
    out.1.snaps = acc.snaps ++ snew ∧
    out.1.state.status = acc.state.status ∧
    out.1.state.error = acc.state.error ∧
    out.1.state.executionId = acc.state.executionId ∧
    (∃ s0 t0, tail = s0 :: t0 ∧ s0.nodeId = node.id ∧ s0.input = some input) ∧
    List.Chain' (nextRel edges) tail ∧
    (∀ sn ∈ snew, sn.status = acc.state.status ∧ sn.finalOutput = acc.state.finalOutput ∧
      sn.error = acc.state.error) ∧
    (∀ e, out.2 = Except.error e →
      out.1.state.finalOutput = acc.state.finalOutput ∧
      (∀ s ∈ tail, s.status = StepStatus.error ∧ s.error = some e) ∧
      (∀ sn ∈ snew, (∃ s ∈ sn.steps, s.status = StepStatus.error) →
        sn.steps.length = out.1.state.steps.length)) ∧
    (∀ outv, out.2 = Except.ok outv →
      ∃ pre l, tail = pre ++ [l] ∧ l.status = StepStatus.completed ∧ l.output = some outv ∧
        (∀ s ∈ pre, s.status = StepStatus.completed ∧
          edges.filter (fun e => e.source == s.nodeId) ≠ []) ∧
        ((edges.filter (fun e => e.source == l.nodeId) = [] ∧
            out.1.state.finalOutput = some outv) ∨
         (∃ ed r, edges.filter (fun e => e.source == l.nodeId) = ed :: r ∧
            nodes.find? (fun n => n.id == ed.target) = none ∧
            out.1.state.finalOutput = acc.state.finalOutput)))

def cNodeA : Node := { id := "A", label := "LA", description := "da", content := "ca" }

def cNodeB : Node := { id := "B", label := "LB", description := "db", content := "cb" }

def cEdgeAB : Edge := { id := "e1", source := "A", target := "B", etype := "animated" }

def cNodeC : Node := { id := "C", label := "LC", description := "dc", content := "cc" }

def cEdgeAC : Edge := { id := "e2", source := "A", target := "C", etype := "temporary" }

/-- The concrete run used against claim C4: a two-node chain `A -> B`, A's
Step completes, B's model call throws. -/
def c4run : RunAcc × Except String String :=
  executeWorkflow defaultImpl
    [[ModelResponse.msg (some "outA") []], [ModelResponse.failure "boom"]]
    "in" [cNodeA, cNodeB] [cEdgeAB] "x"

def cEdgeAghost : Edge := { id := "e1", source := "A", target := "ghost", etype := "animated" }

/-- The concrete run used against claim C9: node A's single outgoing edge
points at an id that matches no node, so the run completes without ever
setting `finalOutput`. -/
def c9run : RunAcc × Except String String :=
  executeWorkflow defaultImpl [[ModelResponse.msg (some "out") []]] "in"
    [cNodeA] [cEdgeAghost] "x"

/-- Reference log for the amended claim C3: one entry per requested call
whose execution succeeded, in request order. -/
def successEntries (impl : ToolImpl) (reqs : List ToolCallRequest) : List ToolCallEntry :=
  reqs.filterMap (fun req =>
    match executeTool impl req.name req.arguments with
    | Except.ok r => some { name := req.name, arguments := req.arguments, result := r }
    | Except.error _ => none)

/-- Reference log for the amended claim C3 over a whole model script. -/
def expectedToolCallLog (impl : ToolImpl) : List ModelResponse → List ToolCallEntry
  | [] => []
  | ModelResponse.failure _ :: _ => []
  | ModelResponse.msg _ reqs :: rest =>
    if reqs.isEmpty then [] else successEntries impl reqs ++ expectedToolCallLog impl rest

def cEdgeAA : Edge := { id := "e0", source := "A", target := "A", etype := "animated" }

def c10nodes : List RawWorkflowNode :=
  [{ id := some "n1", position := none, label := none, description := none,
     handles := none, content := none, footer := none },
   { id := some "n2", position := none, label := none, description := none,
     handles := none, content := none, footer := none }]

def c10edges : List RawWorkflowEdge :=
  [{ id := some "e1", source := "n1", target := "ghost", etype := none }]

theorem get_append_cons {α : Type} (l : List α) (a : α) (t : List α) :
    (l ++ a :: t).get? l.length = some a := by
  induction l with
  | nil => rfl
  | cons x xs ih => simpa using ih

theorem set_append_cons {α : Type} (l : List α) (a b : α) (t : List α) :
    (l ++ a :: t).set l.length b = l ++ b :: t := by
  induction l with
  | nil => rfl
  | cons x xs ih => simp [ih]

theorem markStepError_eq (acc : RunAcc)
    (pre : List AgentStep) (s : AgentStep) (t : List AgentStep) (e : String)
    (hsteps : acc.state.steps = pre ++ s :: t) :
    markStepError acc pre.length e =
      ⟨errorSnap acc.state pre s t e,
       acc.snaps ++ [errorSnap acc.state pre s t e]⟩ := by
  have hget : acc.state.steps.get? pre.length = some s := by
    rw [hsteps]; exact get_append_cons pre s t
  have hset : acc.state.steps.set pre.length (stepErrored s e) = pre ++ stepErrored s e :: t := by
    rw [hsteps]; exact set_append_cons pre s (stepErrored s e) t
  simp only [markStepError, hget, hset, errorSnap]

theorem markStepCompleted_eq (acc : RunAcc)
    (pre : List AgentStep) (s : AgentStep) (t : List AgentStep) (content : String)
    (tcs : List ToolCallEntry) (hsteps : acc.state.steps = pre ++ s :: t) :
    markStepCompleted acc pre.length content tcs =
      ⟨{ acc.state with steps := pre ++ stepDone s content tcs :: t },
       acc.snaps ++ [{ acc.state with steps := pre ++ stepDone s content tcs :: t }]⟩ := by
  have hget : acc.state.steps.get? pre.length = some s := by
    rw [hsteps]; exact get_append_cons pre s t
  have hset : acc.state.steps.set pre.length (stepDone s content tcs) = pre ++ stepDone s content tcs :: t := by
    rw [hsteps]; exact set_append_cons pre s (stepDone s content tcs) t
  simp only [markStepCompleted, hget, hset]

theorem executeNode_spec (impl : ToolImpl) (nodes : List Node) (edges : List Edge)
    (scripts : List ModelScript) : ∀ (node : Node) (input : String) (acc : RunAcc),
    (∀ s ∈ acc.state.steps, s.status ≠ StepStatus.error) →
    NodeRunSpec impl nodes edges scripts node input acc := by
  induction scripts with
  | nil =>
    intro node input acc hacc
    simp only [NodeRunSpec, executeNode, pushStep, markStepError, get_append_cons,
      set_append_cons]
    refine ⟨[stepErrored (mkStep acc.state.steps.length node input) modelCallFailed],
      [{ executionId := acc.state.executionId, status := acc.state.status,
         steps := acc.state.steps ++ [mkStep acc.state.steps.length node input],
         currentNode := some node.id, finalOutput := acc.state.finalOutput,
         error := acc.state.error },
       { executionId := acc.state.executionId, status := acc.state.status,
         steps := acc.state.steps ++
           [stepErrored (mkStep acc.state.steps.length node input) modelCallFailed],
         currentNode := some node.id, finalOutput := acc.state.finalOutput,
         error := acc.state.error }],
      rfl, by simp, trivial, trivial, trivial,
      ⟨_, _, rfl, rfl, rfl⟩, List.chain'_singleton _, ?_, ?_, ?_⟩
    · intro sn hsn
      simp only [List.mem_cons, List.not_mem_nil, or_false] at hsn
      rcases hsn with h | h <;> subst h <;> exact ⟨rfl, rfl, rfl⟩
    · intro e he
      injection he with he
      subst he
      refine ⟨trivial, ?_, ?_⟩
      · intro s hs
        simp only [List.mem_cons, List.not_mem_nil, or_false] at hs
        subst hs
        exact ⟨rfl, rfl⟩
      · intro sn hsn
        simp only [List.mem_cons, List.not_mem_nil, or_false] at hsn
        rcases hsn with h | h <;> subst h
        · rintro ⟨s, hs, hserr⟩
          rcases List.mem_append.mp hs with h1 | h1
          · exact absurd hserr (hacc s h1)
          · simp only [List.mem_cons, List.not_mem_nil, or_false] at h1
            subst h1
            exact absurd hserr (by simp [mkStep])
        · intro _
          simp
    · intro outv h
      exact absurd h (by simp)
  | cons script rest ih =>
    intro node input acc hacc
    simp only [NodeRunSpec, executeNode]
    cases hllm : callLLM impl script (buildNodePrompt node input) with
    | error e =>
      simp only [pushStep, markStepError, get_append_cons, set_append_cons]
      refine ⟨[stepErrored (mkStep acc.state.steps.length node input) e],
        [{ executionId := acc.state.executionId, status := acc.state.status,
           steps := acc.state.steps ++ [mkStep acc.state.steps.length node input],
           currentNode := some node.id, finalOutput := acc.state.finalOutput,
           error := acc.state.error },
         { executionId := acc.state.executionId, status := acc.state.status,
           steps := acc.state.steps ++
             [stepErrored (mkStep acc.state.steps.length node input) e],
           currentNode := some node.id, finalOutput := acc.state.finalOutput,
           error := acc.state.error }],
        rfl, by simp, trivial, trivial, trivial,
        ⟨_, _, rfl, rfl, rfl⟩, List.chain'_singleton _, ?_, ?_, ?_⟩
      · intro sn hsn
        simp only [List.mem_cons, List.not_mem_nil, or_false] at hsn
        rcases hsn with h | h <;> subst h <;> exact ⟨rfl, rfl, rfl⟩
      · intro e2 he
        injection he with he
        subst he
        refine ⟨trivial, ?_, ?_⟩
        · intro s hs
          simp only [List.mem_cons, List.not_mem_nil, or_false] at hs
          subst hs
          exact ⟨rfl, rfl⟩
        · intro sn hsn
          simp only [List.mem_cons, List.not_mem_nil, or_false] at hsn
          rcases hsn with h | h <;> subst h
          · rintro ⟨s, hs, hserr⟩
            rcases List.mem_append.mp hs with h1 | h1
            · exact absurd hserr (hacc s h1)
            · simp only [List.mem_cons, List.not_mem_nil, or_false] at h1
              subst h1
              exact absurd hserr (by simp [mkStep])
          · intro _
            simp
      · intro outv h
        exact absurd h (by simp)
    | ok r =>
      cases hfil : edges.filter (fun e => e.source == node.id) with
      | nil =>
        simp only [pushStep, markStepCompleted, get_append_cons, set_append_cons]
        refine ⟨[stepDone (mkStep acc.state.steps.length node input) r.content r.toolCalls],
          [{ executionId := acc.state.executionId, status := acc.state.status,
             steps := acc.state.steps ++ [mkStep acc.state.steps.length node input],
             currentNode := some node.id, finalOutput := acc.state.finalOutput,
             error := acc.state.error },
           { executionId := acc.state.executionId, status := acc.state.status,
             steps := acc.state.steps ++
               [stepDone (mkStep acc.state.steps.length node input) r.content r.toolCalls],
             currentNode := some node.id, finalOutput := acc.state.finalOutput,
             error := acc.state.error }],
          rfl, by simp, trivial, trivial, trivial,
          ⟨_, _, rfl, rfl, rfl⟩, List.chain'_singleton _, ?_, ?_, ?_⟩
        · intro sn hsn
          simp only [List.mem_cons, List.not_mem_nil, or_false] at hsn
          rcases hsn with h | h <;> subst h <;> exact ⟨rfl, rfl, rfl⟩
        · intro e he
          exact absurd he (by simp)
        · intro outv h
          injection h with h
          subst h
          refine ⟨[], stepDone (mkStep acc.state.steps.length node input) r.content r.toolCalls,
            rfl, rfl, rfl, by simp, Or.inl ⟨?_, rfl⟩⟩
          simpa [stepDone, mkStep] using hfil
      | cons nextEdge restE =>
        cases hfind : nodes.find? (fun n => n.id == nextEdge.target) with
        | none =>
          simp only [hfind, pushStep, markStepCompleted, get_append_cons, set_append_cons]
          refine ⟨[stepDone (mkStep acc.state.steps.length node input) r.content r.toolCalls],
            [{ executionId := acc.state.executionId, status := acc.state.status,
               steps := acc.state.steps ++ [mkStep acc.state.steps.length node input],
               currentNode := some node.id, finalOutput := acc.state.finalOutput,
               error := acc.state.error },
             { executionId := acc.state.executionId, status := acc.state.status,
               steps := acc.state.steps ++
                 [stepDone (mkStep acc.state.steps.length node input) r.content r.toolCalls],
               currentNode := some node.id, finalOutput := acc.state.finalOutput,
               error := acc.state.error }],
            rfl, by simp, trivial, trivial, trivial,
            ⟨_, _, rfl, rfl, rfl⟩, List.chain'_singleton _, ?_, ?_, ?_⟩
          · intro sn hsn
            simp only [List.mem_cons, List.not_mem_nil, or_false] at hsn
            rcases hsn with h | h <;> subst h <;> exact ⟨rfl, rfl, rfl⟩
          · intro e he
            exact absurd he (by simp)
          · intro outv h
            injection h with h
            subst h
            refine ⟨[], stepDone (mkStep acc.state.steps.length node input) r.content r.toolCalls,
              rfl, rfl, rfl, by simp, Or.inr ⟨nextEdge, restE, ?_, hfind, trivial⟩⟩
            simpa [stepDone, mkStep] using hfil
        | some nextNode =>
          simp only [hfind]
          set a1 : RunAcc :=
            markStepCompleted (pushStep acc node input) acc.state.steps.length r.content
              r.toolCalls with ha1
          have ha1steps : a1.state.steps = acc.state.steps ++
              [stepDone (mkStep acc.state.steps.length node input) r.content r.toolCalls] := by
            rw [ha1]
            simp [pushStep, markStepCompleted, get_append_cons, set_append_cons]
          have ha1snaps : a1.snaps =
              acc.snaps ++ [(pushStep acc node input).state, a1.state] := by
            rw [ha1]
            simp [pushStep, markStepCompleted, get_append_cons, set_append_cons]
          have ha1status : a1.state.status = acc.state.status := by
            rw [ha1]
            simp [pushStep, markStepCompleted, get_append_cons, set_append_cons]
          have ha1fout : a1.state.finalOutput = acc.state.finalOutput := by
            rw [ha1]
            simp [pushStep, markStepCompleted, get_append_cons, set_append_cons]
          have ha1err : a1.state.error = acc.state.error := by
            rw [ha1]
            simp [pushStep, markStepCompleted, get_append_cons, set_append_cons]
          have ha1eid : a1.state.executionId = acc.state.executionId := by
            rw [ha1]
            simp [pushStep, markStepCompleted, get_append_cons, set_append_cons]
          have hp1status : (pushStep acc node input).state.status = acc.state.status := by
            simp [pushStep]
          have hp1fout : (pushStep acc node input).state.finalOutput = acc.state.finalOutput := by
            simp [pushStep]
          have hp1err : (pushStep acc node input).state.error = acc.state.error := by
            simp [pushStep]
          have hp1steps : (pushStep acc node input).state.steps =
              acc.state.steps ++ [mkStep acc.state.steps.length node input] := by
            simp [pushStep]
          have hacc1 : ∀ s ∈ a1.state.steps, s.status ≠ StepStatus.error := by
            rw [ha1steps]
            intro s hs
            rcases List.mem_append.mp hs with h1 | h1
            · exact hacc s h1
            · simp only [List.mem_cons, List.not_mem_nil, or_false] at h1
              subst h1
              simp [stepDone]
          have IH := ih nextNode r.content a1 hacc1
          simp only [NodeRunSpec] at IH
          obtain ⟨tailr, snewr, h1, h2, h3, h4, h5, hhead, hchain, hsnapf, herr, hok⟩ := IH
          rcases hrec : executeNode impl nodes edges rest nextNode r.content a1 with ⟨acc2, res⟩
          rw [hrec] at h1 h2 h3 h4 h5 herr hok
          obtain ⟨s0r, t0r, htailr, hs0id, hs0in⟩ := hhead
          have hstep2 : acc2.state.steps = acc.state.steps ++
              stepDone (mkStep acc.state.steps.length node input) r.content r.toolCalls :: tailr := by
            rw [h1, ha1steps]
            simp
          have hsnap2 : acc2.snaps =
              acc.snaps ++ ((pushStep acc node input).state :: a1.state :: snewr) := by
            rw [h2, ha1snaps]
            simp
          have hnextid : nextNode.id = nextEdge.target := by
            simpa using List.find?_some hfind
          cases res with
          | ok outv =>
            obtain ⟨prer, lr, htailr2, hlst, hlout, hpref, hdisj⟩ := hok outv rfl
            refine ⟨stepDone (mkStep acc.state.steps.length node input) r.content r.toolCalls :: tailr,
              (pushStep acc node input).state :: a1.state :: snewr,
              hstep2, hsnap2, h3.trans ha1status, h4.trans ha1err, h5.trans ha1eid,
              ⟨_, _, rfl, rfl, rfl⟩, ?_, ?_, ?_, ?_⟩
            · rw [htailr]
              refine List.chain'_cons.mpr ⟨⟨nextEdge, restE, ?_, ?_⟩, ?_⟩
              · simpa [stepDone, mkStep] using hfil
              · exact hs0id.trans hnextid
              · rw [htailr] at hchain
                exact hchain
            · intro sn hsn
              simp only [List.mem_cons] at hsn
              rcases hsn with h | h | h
              · subst h
                exact ⟨hp1status, hp1fout, hp1err⟩
              · subst h
                exact ⟨ha1status, ha1fout, ha1err⟩
              · obtain ⟨ha, hb, hc⟩ := hsnapf sn h
                exact ⟨ha.trans ha1status, hb.trans ha1fout, hc.trans ha1err⟩
            · intro e he
              exact Except.noConfusion he
            · intro outv2 h
              obtain rfl : outv = outv2 := Except.ok.inj h
              refine ⟨stepDone (mkStep acc.state.steps.length node input) r.content r.toolCalls :: prer,
                lr, by rw [htailr2]; rfl, hlst, hlout, ?_, ?_⟩
              · intro s hs
                simp only [List.mem_cons] at hs
                rcases hs with h | h
                · subst h
                  constructor
                  · rfl
                  · have : List.filter (fun e =>
                        e.source == (stepDone (mkStep acc.state.steps.length node input)
                          r.content r.toolCalls).nodeId) edges = nextEdge :: restE := by
                      simpa [stepDone, mkStep] using hfil
                    rw [this]
                    simp
                · exact hpref s h
              · rcases hdisj with ⟨hfl, hfo⟩ | ⟨ed, r2, hf, hfd, hfo⟩
                · exact Or.inl ⟨hfl, hfo⟩
                · exact Or.inr ⟨ed, r2, hf, hfd, hfo.trans ha1fout⟩
          | error e =>
            obtain ⟨hfo2, htailerr, hsnerr⟩ := herr e rfl
            have hmark := markStepError_eq acc2 acc.state.steps
              (stepDone (mkStep acc.state.steps.length node input) r.content r.toolCalls)
              tailr e hstep2
            simp only [hmark]
            refine ⟨stepErrored (stepDone (mkStep acc.state.steps.length node input)
                r.content r.toolCalls) e :: tailr,
              (pushStep acc node input).state :: a1.state :: (snewr ++
                [errorSnap acc2.state acc.state.steps
                  (stepDone (mkStep acc.state.steps.length node input) r.content r.toolCalls)
                  tailr e]),
              rfl, ?_, h3.trans ha1status, h4.trans ha1err, h5.trans ha1eid,
              ⟨_, _, rfl, rfl, rfl⟩, ?_, ?_, ?_, ?_⟩
            · rw [hsnap2]
              simp
            · rw [htailr]
              refine List.chain'_cons.mpr ⟨⟨nextEdge, restE, ?_, ?_⟩, ?_⟩
              · simpa [stepErrored, stepDone, mkStep] using hfil
              · exact hs0id.trans hnextid
              · rw [htailr] at hchain
                exact hchain
            · intro sn hsn
              simp only [List.mem_cons, List.mem_append, List.not_mem_nil, or_false] at hsn
              rcases hsn with h | h | h | h
              · subst h
                exact ⟨hp1status, hp1fout, hp1err⟩
              · subst h
                exact ⟨ha1status, ha1fout, ha1err⟩
              · obtain ⟨ha, hb, hc⟩ := hsnapf sn h
                exact ⟨ha.trans ha1status, hb.trans ha1fout, hc.trans ha1err⟩
              · subst h
                exact ⟨h3.trans ha1status, hfo2.trans ha1fout, h4.trans ha1err⟩
            · intro e2 he2
              obtain rfl : e = e2 := Except.error.inj he2
              refine ⟨hfo2.trans ha1fout, ?_, ?_⟩
              · intro s hs
                simp only [List.mem_cons] at hs
                rcases hs with h | h
                · subst h
                  exact ⟨rfl, rfl⟩
                · exact htailerr s h
              · intro sn hsn
                simp only [List.mem_cons, List.mem_append, List.not_mem_nil, or_false] at hsn
                rcases hsn with h | h | h | h
                · subst h
                  rintro ⟨s, hs, hserr⟩
                  rw [hp1steps] at hs
                  rcases List.mem_append.mp hs with h1 | h1
                  · exact absurd hserr (hacc s h1)
                  · simp only [List.mem_cons, List.not_mem_nil, or_false] at h1
                    subst h1
                    exact absurd hserr (by simp [mkStep])
                · subst h
                  rintro ⟨s, hs, hserr⟩
                  rw [ha1steps] at hs
                  rcases List.mem_append.mp hs with h1 | h1
                  · exact absurd hserr (hacc s h1)
                  · simp only [List.mem_cons, List.not_mem_nil, or_false] at h1
                    subst h1
                    exact absurd hserr (by simp [stepDone])
                · intro hex
                  rw [hsnerr sn h hex, hstep2]
                  simp [errorSnap]
                · subst h
                  intro _
                  simp
            · intro outv h
              exact Except.noConfusion h

/-!  Claim theorems: entry selection, terminal step, routing. -/

theorem find?_eq_of_filter_singleton {α : Type} (p : α → Bool) (l : List α) (a : α)
    (h : l.filter p = [a]) : l.find? p = some a := by
  rw [← List.filter_head? p l, h]
  rfl

theorem find?_eq_none_of_filter_nil {α : Type} (p : α → Bool) (l : List α)
    (h : l.filter p = []) : l.find? p = none := by
  rw [← List.filter_head? p l, h]
  rfl

/-- Claim C1: a unique node that is the target of no edge is selected as the
node of the run's first Step; when every node is the target of some edge the
run fails with the no-starting-node error, `steps` stays empty in the final
state and in every snapshot, and the state ends with status `error`. -/
theorem C1_entry_selection (impl : ToolImpl) (scripts : List ModelScript)
    (input : String) (nodes : List Node) (edges : List Edge) (eid : String) :
    (∀ n, nodes.filter (fun node => !(edges.any (fun e => e.target == node.id))) = [n] →
      ∃ s t, (executeWorkflow impl scripts input nodes edges eid).1.state.steps = s :: t ∧
        s.nodeId = n.id) ∧
    (nodes.filter (fun node => !(edges.any (fun e => e.target == node.id))) = [] →
      (executeWorkflow impl scripts input nodes edges eid).1.state.steps = [] ∧
      (∀ sn ∈ (executeWorkflow impl scripts input nodes edges eid).1.snaps, sn.steps = []) ∧
      (executeWorkflow impl scripts input nodes edges eid).1.state.status = ExecStatus.error ∧
      (executeWorkflow impl scripts input nodes edges eid).1.state.error = some noStartMsg ∧
      (executeWorkflow impl scripts input nodes edges eid).2 = Except.error noStartMsg) := by
  constructor
  · intro n hn
    have hfind := find?_eq_of_filter_singleton _ nodes n hn
    have hspec := executeNode_spec impl nodes edges scripts n input
      ⟨{ initialState eid with status := ExecStatus.running },
       [{ initialState eid with status := ExecStatus.running }]⟩ (by intro s hs; cases hs)
    simp only [NodeRunSpec] at hspec
    obtain ⟨tail, snew, h1, h2, h3, h4, h5, ⟨s0, t0, htail, hs0id, hs0in⟩, hrest⟩ := hspec
    simp only [executeWorkflow, hfind]
    rcases hrec : executeNode impl nodes edges scripts n input
      ⟨{ initialState eid with status := ExecStatus.running },
       [{ initialState eid with status := ExecStatus.running }]⟩ with ⟨acc1, res⟩
    rw [hrec] at h1
    cases res with
    | ok outv =>
      refine ⟨s0, t0, ?_, hs0id⟩
      simpa [initialState, htail] using h1
    | error e =>
      refine ⟨s0, t0, ?_, hs0id⟩
      simpa [initialState, htail] using h1
  · intro hnone
    have hfind := find?_eq_none_of_filter_nil _ nodes hnone
    simp only [executeWorkflow, hfind]
    refine ⟨by trivial, ?_, by trivial, by trivial, by trivial⟩
    intro sn hsn
    simp only [List.mem_append, List.mem_cons, List.not_mem_nil, or_false] at hsn
    rcases hsn with h | h <;> subst h <;> rfl

/-- Claim C5: traversal always follows the first outgoing edge (in edge-list
declaration order) of the node just executed: consecutive Steps of any run
are related by `nextRel`, so any additional outgoing edges are ignored; and
in a completed run over edges whose targets all name existing nodes, the
only Step without a successor — the last one — is for a node with zero
outgoing edges, so every completed non-terminal Step is in fact followed by
the first edge's target. -/
theorem C5_first_edge_routing (impl : ToolImpl) (scripts : List ModelScript)
    (input : String) (nodes : List Node) (edges : List Edge) (eid : String) :
    List.Chain' (nextRel edges)
      (executeWorkflow impl scripts input nodes edges eid).1.state.steps ∧
    (∀ outv, (executeWorkflow impl scripts input nodes edges eid).2 = Except.ok outv →
      (∀ ed ∈ edges, ∃ n ∈ nodes, n.id = ed.target) →
      ∀ s, (executeWorkflow impl scripts input nodes edges eid).1.state.steps.getLast? =
        some s →
      edges.filter (fun e => e.source == s.nodeId) = []) := by
  cases hfind : nodes.find? (fun node => !(edges.any (fun e => e.target == node.id))) with
  | none =>
    simp only [executeWorkflow, hfind]
    refine ⟨List.chain'_nil, ?_⟩
    intro outv h
    exact absurd h (by simp)
  | some startNode =>
    have hspec := executeNode_spec impl nodes edges scripts startNode input
      ⟨{ initialState eid with status := ExecStatus.running },
       [{ initialState eid with status := ExecStatus.running }]⟩ (by intro s hs; cases hs)
    simp only [NodeRunSpec] at hspec
    obtain ⟨tail, snew, h1, h2, h3, h4, h5, hhead, hchain, hsnapf, herr, hok⟩ := hspec
    simp only [executeWorkflow, hfind]
    rcases hrec : executeNode impl nodes edges scripts startNode input
      ⟨{ initialState eid with status := ExecStatus.running },
       [{ initialState eid with status := ExecStatus.running }]⟩ with ⟨acc1, res⟩
    rw [hrec] at h1 hok
    have hsteps : acc1.state.steps = tail := by simpa [initialState] using h1
    cases res with
    | ok outv =>
      refine ⟨by simpa [hsteps] using hchain, ?_⟩
      intro o ho hwf s hlast
      obtain rfl : outv = o := Except.ok.inj ho
      obtain ⟨pre, l, htail, hlst, hlout, hpref, hdisj⟩ := hok outv rfl
      have hsl : s = l := by
        have : acc1.state.steps.getLast? = some s := by simpa using hlast
        rw [hsteps, htail, List.getLast?_concat] at this
        exact (Option.some.inj this).symm
      subst hsl
      rcases hdisj with ⟨hfl, _⟩ | ⟨ed, r2, hf, hfd, _⟩
      · exact hfl
      · exfalso
        have hedmem : ed ∈ edges := by
          have hmem : ed ∈ edges.filter (fun e => e.source == s.nodeId) := by
            rw [hf]
            exact List.mem_cons_self ed r2
          exact List.mem_of_mem_filter hmem
        obtain ⟨n, hn, hnid⟩ := hwf ed hedmem
        have := List.find?_eq_none.mp hfd n hn
        simp [hnid] at this
    | error e =>
      refine ⟨by simpa [hsteps] using hchain, ?_⟩
      intro o ho
      exact absurd ho (by simp)

/-- Claim C2: when a run's Step for a node with zero outgoing edges completes,
that Step is the last Step of the run, `finalOutput` equals the Step's
output, and the final status is `completed`. -/
theorem C2_terminal_step (impl : ToolImpl) (scripts : List ModelScript)
    (input : String) (nodes : List Node) (edges : List Edge) (eid : String)
    (s : AgentStep)
    (hs : s ∈ (executeWorkflow impl scripts input nodes edges eid).1.state.steps)
    (hc : s.status = StepStatus.completed)
    (ht : edges.filter (fun e => e.source == s.nodeId) = []) :
    (executeWorkflow impl scripts input nodes edges eid).1.state.steps.getLast? = some s ∧
    (executeWorkflow impl scripts input nodes edges eid).1.state.finalOutput = s.output ∧
    (executeWorkflow impl scripts input nodes edges eid).1.state.status = ExecStatus.completed := by
  cases hfind : nodes.find? (fun node => !(edges.any (fun e => e.target == node.id))) with
  | none =>
    simp [executeWorkflow, hfind, initialState] at hs
  | some startNode =>
    have hspec := executeNode_spec impl nodes edges scripts startNode input
      ⟨{ initialState eid with status := ExecStatus.running },
       [{ initialState eid with status := ExecStatus.running }]⟩ (by intro t htm; cases htm)
    simp only [NodeRunSpec] at hspec
    obtain ⟨tail, snew, h1, h2, h3, h4, h5, hhead, hchain, hsnapf, herr, hok⟩ := hspec
    rw [executeWorkflow] at hs ⊢
    simp only [hfind] at hs ⊢
    rcases hrec : executeNode impl nodes edges scripts startNode input
      ⟨{ initialState eid with status := ExecStatus.running },
       [{ initialState eid with status := ExecStatus.running }]⟩ with ⟨acc1, res⟩
    rw [hrec] at h1 herr hok hs
    have hsteps : acc1.state.steps = tail := by simpa [initialState] using h1
    cases res with
    | error e =>
      obtain ⟨_, htailerr, _⟩ := herr e rfl
      simp only [hsteps] at hs
      have := (htailerr s hs).1
      rw [hc] at this
      cases this
    | ok outv =>
      obtain ⟨pre, l, htail, hlst, hlout, hpref, hdisj⟩ := hok outv rfl
      simp only [hsteps, htail] at hs ⊢
      have hsl : s = l := by
        rcases List.mem_append.mp hs with hp | hp
        · exact absurd ht (hpref s hp).2
        · simpa using hp
      subst hsl
      refine ⟨?_, ?_, by trivial⟩
      · exact List.getLast?_concat pre
      · rcases hdisj with ⟨hfl, hfo⟩ | ⟨ed, r2, hf, hfd, hfo⟩
        · rw [hlout]
          exact hfo
        · rw [ht] at hf
          cases hf

/-!  C4: failure containment (corrected).  -/

/-- Counterexample to claim C4 as stated: the snapshot stream shows A's Step
`completed` (third snapshot), yet in the final state A's Step has been
re-marked `error` by the recursive catch — prior completed Steps are not left
unchanged. -/
theorem C4_counterexample :
    c4run.1.snaps.map (fun sn => sn.steps.map AgentStep.status) =
      [[], [StepStatus.running], [StepStatus.completed],
       [StepStatus.completed, StepStatus.running],
       [StepStatus.completed, StepStatus.error],
       [StepStatus.error, StepStatus.error],
       [StepStatus.error, StepStatus.error]] ∧
    c4run.1.state.steps.map (fun s => (s.status, s.error, s.output)) =
      [(StepStatus.error, some "boom", some "outA"),
       (StepStatus.error, some "boom", none)] := by
  constructor <;> rfl

/-- Claim C4 (amended): when a Step's interaction loop throws, the
ExecutionState is set to `error` with the captured message and no Step for a
further node is created (every snapshot that already shows an errored Step
has the final number of Steps); the failing Step is marked `error` with the
message — but prior completed Steps are not left unchanged: every Step of the
run, being an ancestor of the failing recursive call, is re-marked `error`
with the same message (outputs are retained, statuses are overwritten). -/
theorem C4_error_containment (impl : ToolImpl) (scripts : List ModelScript)
    (input : String) (nodes : List Node) (edges : List Edge) (eid : String) (e : String)
    (hres : (executeWorkflow impl scripts input nodes edges eid).2 = Except.error e) :
    (executeWorkflow impl scripts input nodes edges eid).1.state.status = ExecStatus.error ∧
    (executeWorkflow impl scripts input nodes edges eid).1.state.error = some e ∧
    (∀ s ∈ (executeWorkflow impl scripts input nodes edges eid).1.state.steps,
      s.status = StepStatus.error ∧ s.error = some e) ∧
    (∀ sn ∈ (executeWorkflow impl scripts input nodes edges eid).1.snaps,
      (∃ s ∈ sn.steps, s.status = StepStatus.error) →
      sn.steps.length = (executeWorkflow impl scripts input nodes edges eid).1.state.steps.length) := by
  cases hfind : nodes.find? (fun node => !(edges.any (fun e => e.target == node.id))) with
  | none =>
    simp only [executeWorkflow, hfind] at hres ⊢
    obtain rfl : noStartMsg = e := Except.error.inj hres
    refine ⟨by trivial, by trivial, ?_, ?_⟩
    · intro s hs
      simp [initialState] at hs
    · intro sn hsn
      simp only [List.mem_append, List.mem_cons, List.not_mem_nil, or_false] at hsn
      rcases hsn with h | h <;> subst h <;> rintro ⟨s, hs, -⟩ <;> simp [initialState] at hs
  | some startNode =>
    have hspec := executeNode_spec impl nodes edges scripts startNode input
      ⟨{ initialState eid with status := ExecStatus.running },
       [{ initialState eid with status := ExecStatus.running }]⟩ (by intro t htm; cases htm)
    simp only [NodeRunSpec] at hspec
    obtain ⟨tail, snew, h1, h2, h3, h4, h5, hhead, hchain, hsnapf, herr, hok⟩ := hspec
    simp only [executeWorkflow, hfind] at hres ⊢
    rcases hrec : executeNode impl nodes edges scripts startNode input
      ⟨{ initialState eid with status := ExecStatus.running },
       [{ initialState eid with status := ExecStatus.running }]⟩ with ⟨acc1, res⟩
    rw [hrec] at h1 h2 herr hres
    cases res with
    | ok outv => exact absurd hres (by simp)
    | error e2 =>
      obtain rfl : e2 = e := Except.error.inj hres
      obtain ⟨hfo, htailerr, hsnlen⟩ := herr e2 rfl
      have hsteps : acc1.state.steps = tail := by simpa [initialState] using h1
      refine ⟨by trivial, by trivial, ?_, ?_⟩
      · intro s hs
        simp only [hsteps] at hs
        exact htailerr s hs
      · intro sn hsn
        simp only [List.mem_append] at hsn
        rcases hsn with h | h
        · rw [h2] at h
          simp only [List.mem_append, List.mem_cons, List.not_mem_nil, or_false] at h
          rcases h with h | h
          · subst h
            rintro ⟨s, hs, -⟩
            simp [initialState] at hs
          · intro hex
            simpa [hsteps] using hsnlen sn h hex
        · simp only [List.mem_cons, List.not_mem_nil, or_false] at h
          subst h
          intro _
          simp [hsteps]

/-!  C9: finalOutput/status invariant (corrected).  -/

/-- Counterexample to claim C9 as stated: the run's last delivered snapshot
(equal to the returned final state) has `status = completed` but
`finalOutput` unset, because the followed edge's target matches no node and
`executeNode` returns without storing a final output. -/
theorem C9_counterexample :
    c9run.1.state.status = ExecStatus.completed ∧
    c9run.1.state.finalOutput = none ∧
    c9run.1.snaps.getLast? = some c9run.1.state := by
  exact ⟨rfl, rfl, rfl⟩

/-- Claim C9 (amended): in every observable snapshot (each `onUpdate`
delivery and the returned final state) a set `finalOutput` implies
`status = completed`; the converse — and hence the claimed equivalence —
holds provided every edge's target is the id of some node in the list
(without that proviso a run over a dangling edge completes with
`finalOutput` unset). -/
theorem C9_finalOutput_invariant (impl : ToolImpl) (scripts : List ModelScript)
    (input : String) (nodes : List Node) (edges : List Edge) (eid : String) :
    (∀ sn ∈ (executeWorkflow impl scripts input nodes edges eid).1.snaps,
      sn.finalOutput.isSome = true → sn.status = ExecStatus.completed) ∧
    ((executeWorkflow impl scripts input nodes edges eid).1.state.finalOutput.isSome = true →
      (executeWorkflow impl scripts input nodes edges eid).1.state.status = ExecStatus.completed) ∧
    ((∀ ed ∈ edges, ∃ n ∈ nodes, n.id = ed.target) →
      (∀ sn ∈ (executeWorkflow impl scripts input nodes edges eid).1.snaps,
        (sn.finalOutput.isSome = true ↔ sn.status = ExecStatus.completed)) ∧
      ((executeWorkflow impl scripts input nodes edges eid).1.state.finalOutput.isSome = true ↔
        (executeWorkflow impl scripts input nodes edges eid).1.state.status = ExecStatus.completed)) := by
  cases hfind : nodes.find? (fun node => !(edges.any (fun e => e.target == node.id))) with
  | none =>
    simp only [executeWorkflow, hfind]
    refine ⟨?_, by simp [initialState], fun _ => ⟨?_, by simp [initialState]⟩⟩ <;>
      · intro sn hsn
        simp only [List.mem_append, List.mem_cons, List.not_mem_nil, or_false] at hsn
        rcases hsn with h | h <;> subst h <;> simp [initialState]
  | some startNode =>
    have hspec := executeNode_spec impl nodes edges scripts startNode input
      ⟨{ initialState eid with status := ExecStatus.running },
       [{ initialState eid with status := ExecStatus.running }]⟩ (by intro t htm; cases htm)
    simp only [NodeRunSpec] at hspec
    obtain ⟨tail, snew, h1, h2, h3, h4, h5, hhead, hchain, hsnapf, herr, hok⟩ := hspec
    simp only [executeWorkflow, hfind]
    rcases hrec : executeNode impl nodes edges scripts startNode input
      ⟨{ initialState eid with status := ExecStatus.running },
       [{ initialState eid with status := ExecStatus.running }]⟩ with ⟨acc1, res⟩
    rw [hrec] at h1 h2 herr hok
    have h2s : acc1.snaps = { initialState eid with status := ExecStatus.running } :: snew := by
      simpa using h2
    have hsnapfacts : ∀ sn ∈ snew, sn.status = ExecStatus.running ∧ sn.finalOutput = none := by
      intro sn hsn
      obtain ⟨ha, hb, _⟩ := hsnapf sn hsn
      constructor
      · simpa [initialState] using ha
      · simpa [initialState] using hb
    cases res with
    | ok outv =>
      have hfinal : acc1.state.finalOutput.isSome = true ∨
          ¬ (∀ ed ∈ edges, ∃ n ∈ nodes, n.id = ed.target) := by
        obtain ⟨pre, l, htail, hlst, hlout, hpref, hdisj⟩ := hok outv rfl
        rcases hdisj with ⟨hfl, hfo⟩ | ⟨ed, r2, hf, hfd, hfo⟩
        · have hfo2 : acc1.state.finalOutput = some outv := hfo
          exact Or.inl (by simp [hfo2])
        · refine Or.inr ?_
          intro hwf
          have hedmem : ed ∈ edges := by
            have hmem : ed ∈ edges.filter (fun e => e.source == l.nodeId) := by
              rw [hf]
              exact List.mem_cons_self ed r2
            exact List.mem_of_mem_filter hmem
          obtain ⟨n, hn, hnid⟩ := hwf ed hedmem
          have := List.find?_eq_none.mp hfd n hn
          simp [hnid] at this
      refine ⟨?_, by simp, fun hwf => ⟨?_, ?_⟩⟩
      · intro sn hsn
        simp only [h2s, List.cons_append, List.mem_cons, List.mem_append,
          List.not_mem_nil, or_false] at hsn
        rcases hsn with h | h | h
        · subst h
          simp [initialState]
        · obtain ⟨ha, hb⟩ := hsnapfacts sn h
          rw [ha, hb]
          simp
        · subst h
          simp
      · intro sn hsn
        simp only [h2s, List.cons_append, List.mem_cons, List.mem_append,
          List.not_mem_nil, or_false] at hsn
        rcases hsn with h | h | h
        · subst h
          simp [initialState]
        · obtain ⟨ha, hb⟩ := hsnapfacts sn h
          rw [ha, hb]
          simp
        · subst h
          rcases hfinal with hv | hv
          · simpa using hv
          · exact absurd hwf hv
      · rcases hfinal with hv | hv
        · simpa using hv
        · exact absurd hwf hv
    | error e =>
      obtain ⟨hfo, htailerr, hsnlen⟩ := herr e rfl
      have hfonone : acc1.state.finalOutput = none := by
        simpa [initialState] using hfo
      refine ⟨?_, by simp [hfonone], fun hwf => ⟨?_, by simp [hfonone]⟩⟩ <;>
        · intro sn hsn
          simp only [h2s, List.cons_append, List.mem_cons, List.mem_append,
            List.not_mem_nil, or_false] at hsn
          rcases hsn with h | h | h
          · subst h
            simp [initialState]
          · obtain ⟨ha, hb⟩ := hsnapfacts sn h
            rw [ha, hb]
            simp
          · subst h
            simp [hfonone]

/-!  C8: SSE event stream of the execute-agent route.  -/

theorem filter_done_map_update (l : List AgentExecutionState) :
    (l.map SSEEvent.update).filter eventDone = [] := by
  induction l with
  | nil => rfl
  | cons x xs ih => simp [eventDone, ih]

theorem executeWorkflow_terminal_status (impl : ToolImpl) (scripts : List ModelScript)
    (input : String) (nodes : List Node) (edges : List Edge) (eid : String) :
    (∀ outv, (executeWorkflow impl scripts input nodes edges eid).2 = Except.ok outv →
      (executeWorkflow impl scripts input nodes edges eid).1.state.status =
        ExecStatus.completed) ∧
    (∀ e, (executeWorkflow impl scripts input nodes edges eid).2 = Except.error e →
      (executeWorkflow impl scripts input nodes edges eid).1.state.status = ExecStatus.error ∧
      (executeWorkflow impl scripts input nodes edges eid).1.state.error = some e) := by
  cases hfind : nodes.find? (fun node => !(edges.any (fun e => e.target == node.id))) with
  | none =>
    simp only [executeWorkflow, hfind]
    refine ⟨?_, ?_⟩
    · intro outv h
      exact absurd h (by simp)
    · intro e he
      obtain rfl : noStartMsg = e := Except.error.inj he
      exact ⟨by trivial, by trivial⟩
  | some startNode =>
    simp only [executeWorkflow, hfind]
    rcases hrec : executeNode impl nodes edges scripts startNode input
      ⟨{ initialState eid with status := ExecStatus.running },
       [{ initialState eid with status := ExecStatus.running }]⟩ with ⟨acc1, res⟩
    cases res with
    | ok outv =>
      refine ⟨fun o h => rfl, fun e he => absurd he (by simp)⟩
    | error e2 =>
      refine ⟨fun o h => absurd h (by simp), fun e he => ?_⟩
      obtain rfl : e2 = e := Except.error.inj he
      exact ⟨by trivial, by trivial⟩

/-- Claim C8: the route delivers events in production order (dropping the
terminal event, the stream is exactly the produced snapshots in order);
exactly one event carries `done = true`; it is the last event even for runs
that end in error; and the last event reflects the run's true terminal
status — the final state with `status = completed` on success, the captured
error message (equal to the state's `error`, with `status = error`) on
failure. -/
theorem C8_event_stream (impl : ToolImpl) (scripts : List ModelScript)
    (input : String) (nodes : List Node) (edges : List Edge) (eid : String) :
    executeAgentRoute impl scripts input nodes edges eid ≠ [] ∧
    (executeAgentRoute impl scripts input nodes edges eid).dropLast =
      (executeWorkflow impl scripts input nodes edges eid).1.snaps.map SSEEvent.update ∧
    ((executeAgentRoute impl scripts input nodes edges eid).filter eventDone).length = 1 ∧
    (∀ ev, (executeAgentRoute impl scripts input nodes edges eid).getLast? = some ev →
      eventDone ev = true ∧
      (∀ outv, (executeWorkflow impl scripts input nodes edges eid).2 = Except.ok outv →
        ev = SSEEvent.final (executeWorkflow impl scripts input nodes edges eid).1.state ∧
        (executeWorkflow impl scripts input nodes edges eid).1.state.status =
          ExecStatus.completed) ∧
      (∀ e, (executeWorkflow impl scripts input nodes edges eid).2 = Except.error e →
        ev = SSEEvent.errorEvent e ∧
        (executeWorkflow impl scripts input nodes edges eid).1.state.status = ExecStatus.error ∧
        (executeWorkflow impl scripts input nodes edges eid).1.state.error = some e)) := by
  have hstat := executeWorkflow_terminal_status impl scripts input nodes edges eid
  rcases hw : executeWorkflow impl scripts input nodes edges eid with ⟨acc, res⟩
  rw [hw] at hstat
  cases res with
  | ok outv =>
    refine ⟨by simp [executeAgentRoute, hw], by simp [executeAgentRoute, hw], ?_, ?_⟩
    · simp [executeAgentRoute, hw, List.filter_append, filter_done_map_update, eventDone]
    · intro ev hev
      simp only [executeAgentRoute, hw, List.getLast?_concat] at hev
      obtain rfl : SSEEvent.final acc.state = ev := Option.some.inj hev
      refine ⟨rfl, ?_, ?_⟩
      · intro o h
        exact ⟨rfl, hstat.1 o h⟩
      · intro e he
        exact absurd he (by simp)
  | error e2 =>
    refine ⟨by simp [executeAgentRoute, hw], by simp [executeAgentRoute, hw], ?_, ?_⟩
    · simp [executeAgentRoute, hw, List.filter_append, filter_done_map_update, eventDone]
    · intro ev hev
      simp only [executeAgentRoute, hw, List.getLast?_concat] at hev
      obtain rfl : SSEEvent.errorEvent e2 = ev := Option.some.inj hev
      refine ⟨rfl, ?_, ?_⟩
      · intro o h
        exact absurd h (by simp)
      · intro e he
        obtain rfl : e2 = e := Except.error.inj he
        exact ⟨rfl, hstat.2 e2 rfl⟩

/-!  C3: tool-call logging (corrected), C6: unknown tool, C7: missing answer. -/

/-- Counterexample to claim C3 as stated: one tool call is requested (naming
a tool whose execution fails because it is not in the registry) and the loop
then terminates on a final answer, yet the Step's `toolCalls` log is empty —
the catch branch of `callLLM` records the synthetic error only in the
conversation, never in `toolCalls`. -/
theorem C3_counterexample :
    (callLLM defaultImpl
        [ModelResponse.msg none [{ id := "call_1", name := "not_a_tool", arguments := "a" }],
         ModelResponse.msg (some "done") []] "p").map LLMResult.toolCalls =
      Except.ok [] ∧
    [ModelResponse.msg none [{ id := "call_1", name := "not_a_tool", arguments := "a" }],
       ModelResponse.msg (some "done") []].head?.map
        (fun m => match m with
          | ModelResponse.msg _ reqs => reqs.length
          | ModelResponse.failure _ => 0) = some 1 := by
  exact ⟨rfl, rfl⟩

theorem processToolCalls_snd (impl : ToolImpl) (reqs : List ToolCallRequest) :
    ∀ (msgs : List ChatMessage) (tcs : List ToolCallEntry),
    (processToolCalls impl reqs msgs tcs).2 = tcs ++ successEntries impl reqs := by
  induction reqs with
  | nil => intro msgs tcs; simp [processToolCalls, successEntries]
  | cons req rest ih =>
    intro msgs tcs
    cases h : executeTool impl req.name req.arguments with
    | ok r => simp [processToolCalls, h, ih, successEntries, List.filterMap_cons]
    | error e => simp [processToolCalls, h, ih, successEntries, List.filterMap_cons]

theorem callLLMGo_ok_spec (impl : ToolImpl) (script : List ModelResponse) :
    ∀ (msgs : List ChatMessage) (tcs : List ToolCallEntry) (n : Nat) (r : LLMResult),
    callLLMGo impl script msgs tcs n = Except.ok r →
    r.toolCalls = tcs ++ expectedToolCallLog impl script ∧
    ∃ pre c rest2, script = pre ++ ModelResponse.msg c [] :: rest2 ∧
      ∀ m ∈ pre, ∃ c2 reqs, m = ModelResponse.msg c2 reqs ∧ reqs ≠ [] := by
  induction script with
  | nil => intro msgs tcs n r h; exact absurd h (by simp [callLLMGo])
  | cons resp rest ih =>
    intro msgs tcs n r h
    cases resp with
    | failure e => exact absurd h (by simp [callLLMGo])
    | msg c reqs =>
      cases reqs with
      | nil =>
        rw [callLLMGo] at h
        simp only [List.isEmpty_nil, if_true] at h
        obtain rfl := Except.ok.inj h
        refine ⟨by simp [expectedToolCallLog], [], c, rest, rfl, by simp⟩
      | cons q qs =>
        rw [callLLMGo] at h
        simp only [List.isEmpty_cons, Bool.false_eq_true, if_false] at h
        obtain ⟨h1, pre, c2, rest2, hsh, hpre⟩ := ih _ _ _ r h
        rw [processToolCalls_snd] at h1
        refine ⟨?_, ModelResponse.msg c (q :: qs) :: pre, c2, rest2, by rw [hsh]; rfl, ?_⟩
        · rw [h1, expectedToolCallLog]
          simp
        · intro m hm
          simp only [List.mem_cons] at hm
          rcases hm with h | h
          · exact ⟨c, q :: qs, h, by simp⟩
          · exact hpre m h

/-- Claim C3 (amended): during one Step, every requested tool call whose
execution succeeds produces exactly one `{name, arguments, result}` entry in
the Step's `toolCalls`, in request order; a requested call whose execution
fails (unknown tool or throwing body) produces no `toolCalls` entry — only a
synthetic error tool message in the conversation; and the loop terminates
only when a model response carries no tool-call requests. -/
theorem C3_tool_call_log (impl : ToolImpl) (script : List ModelResponse)
    (prompt : String) (r : LLMResult)
    (h : callLLM impl script prompt = Except.ok r) :
    r.toolCalls = expectedToolCallLog impl script ∧
    ∃ pre c rest2, script = pre ++ ModelResponse.msg c [] :: rest2 ∧
      ∀ m ∈ pre, ∃ c2 reqs, m = ModelResponse.msg c2 reqs ∧ reqs ≠ [] := by
  have hgo := callLLMGo_ok_spec impl script
    [ChatMessage.system systemPrompt, ChatMessage.user prompt] [] 0 r h
  simpa using hgo

/-- Claim C6: when the model requests a call naming a tool that is not in
the registry, the Step does not fail: the loop pushes the synthetic
`Tool execution failed` result into the conversation as the tool message for
that call id and continues with another model call (the remaining script,
call counter advanced); in particular if the next response is a final
answer, the whole call succeeds with that answer and an empty tool-call
log. -/
theorem C6_unknown_tool (impl : ToolImpl) (prompt cid toolname args : String)
    (c : Option String) (rest : List ModelResponse)
    (h : agentTools.find? (fun t => t.name == toolname) = none) :
    callLLM impl
        (ModelResponse.msg c [{ id := cid, name := toolname, arguments := args }] :: rest)
        prompt =
      callLLMGo impl rest
        [ChatMessage.system systemPrompt, ChatMessage.user prompt,
         ChatMessage.assistant c [{ id := cid, name := toolname, arguments := args }],
         ChatMessage.tool cid toolFailureContent] [] 1 ∧
    (∀ t, rest = [ModelResponse.msg (some t) []] →
      callLLM impl
          (ModelResponse.msg c [{ id := cid, name := toolname, arguments := args }] :: rest)
          prompt =
        Except.ok
          { content := orDefault (some t) noResponseSentinel
            toolCalls := []
            messages :=
              [ChatMessage.system systemPrompt, ChatMessage.user prompt,
               ChatMessage.assistant c [{ id := cid, name := toolname, arguments := args }],
               ChatMessage.tool cid toolFailureContent]
            callsUsed := 2 }) := by
  constructor
  · simp [callLLM, callLLMGo, processToolCalls, executeTool, h]
  · intro t hrest
    subst hrest
    simp [callLLM, callLLMGo, processToolCalls, executeTool, h, orDefault]

/-- Claim C7: a model response carrying neither text content nor tool-call
requests terminates the loop with the fixed non-empty sentinel output
`No response generated`, and the Step completes normally — for a terminal
node the Step record ends `completed` with the sentinel as its output and
the run's result is the sentinel. -/
theorem C7_missing_answer (impl : ToolImpl) (msgs : List ChatMessage)
    (tcs : List ToolCallEntry) (n : Nat) (rest : List ModelResponse)
    (nodes : List Node) (edges : List Edge) (node : Node) (input : String) (acc : RunAcc) :
    callLLMGo impl (ModelResponse.msg none [] :: rest) msgs tcs n =
      Except.ok { content := noResponseSentinel, toolCalls := tcs, messages := msgs,
                  callsUsed := n + 1 } ∧
    noResponseSentinel ≠ "" ∧
    (edges.filter (fun e => e.source == node.id) = [] →
      (executeNode impl nodes edges [[ModelResponse.msg none []]] node input acc).2 =
        Except.ok noResponseSentinel ∧
      (executeNode impl nodes edges [[ModelResponse.msg none []]] node input
          acc).1.state.steps.getLast? =
        some (stepDone (mkStep acc.state.steps.length node input) noResponseSentinel []) ∧
      (stepDone (mkStep acc.state.steps.length node input) noResponseSentinel []).status =
        StepStatus.completed ∧
      (stepDone (mkStep acc.state.steps.length node input) noResponseSentinel []).output =
        some noResponseSentinel) := by
  refine ⟨by simp [callLLMGo, orDefault], by decide, ?_⟩
  intro ht
  have hcall : callLLM impl [ModelResponse.msg none []] (buildNodePrompt node input) =
      Except.ok { content := noResponseSentinel, toolCalls := [],
                  messages := [ChatMessage.system systemPrompt,
                    ChatMessage.user (buildNodePrompt node input)],
                  callsUsed := 1 } := by
    simp [callLLM, callLLMGo, orDefault]
  refine ⟨?_, ?_, rfl, rfl⟩
  · simp [executeNode, hcall, ht, pushStep, markStepCompleted, get_append_cons, set_append_cons]
  · simp [executeNode, hcall, ht, pushStep, markStepCompleted, get_append_cons, set_append_cons,
      List.getLast?_concat]

/-!  C10: edge validation of the generate-workflow route.  -/

theorem enumFrom_map_snd {α β : Type} (f : α → β) :
    ∀ (l : List α) (n : Nat), (l.enumFrom n).map (fun p => f p.2) = l.map f := by
  intro l
  induction l with
  | nil => intro n; rfl
  | cons x xs ih => intro n; simp [List.enumFrom, ih]

theorem fallbackEdges_pairs (nodes : List GenNode) :
    (fallbackEdges nodes).map (fun e => (e.source, e.target)) =
      (nodes.map GenNode.id).zip ((nodes.map GenNode.id).tail) := by
  have h1 : (fallbackEdges nodes).map (fun e => (e.source, e.target)) =
      (nodes.zip nodes.tail).map (fun p => (p.1.id, p.2.id)) := by
    simp only [fallbackEdges, List.map_map, List.enum]
    exact enumFrom_map_snd (fun (p : GenNode × GenNode) => (p.1.id, p.2.id))
      (nodes.zip nodes.tail) 0
  rw [h1, ← List.map_tail]
  rw [List.zip_map]
  rfl

theorem validateEdges_pairs (nodeIds : List String) (rawEdges : List RawWorkflowEdge) :
    (validateEdges nodeIds rawEdges).map (fun e => (e.source, e.target)) =
      (rawEdges.filter (fun e => nodeIds.contains e.source && nodeIds.contains e.target)).map
        (fun e => (e.source, e.target)) := by
  simp only [validateEdges, List.map_map, List.enum]
  exact enumFrom_map_snd (fun (e : RawWorkflowEdge) => (e.source, e.target))
    (rawEdges.filter (fun e => nodeIds.contains e.source && nodeIds.contains e.target)) 0

/-- Claim C10: every edge of a successful generate-workflow response has a
source and a target equal to the id of some returned node; edges violating
this are dropped (the kept edges are exactly the raw edges with valid
endpoints, in order); and when no valid edge remains while at least two
nodes exist, the returned edges are a sequential chain connecting
consecutive nodes in list order. -/
theorem C10_edge_validation (rawNodes : List RawWorkflowNode)
    (rawEdges : List RawWorkflowEdge) :
    (∀ e ∈ (generateWorkflowResponse rawNodes rawEdges).2,
      e.source ∈ (generateWorkflowResponse rawNodes rawEdges).1.map GenNode.id ∧
      e.target ∈ (generateWorkflowResponse rawNodes rawEdges).1.map GenNode.id) ∧
    ((generateWorkflowResponse rawNodes rawEdges).2.map (fun e => (e.source, e.target)) =
        (rawEdges.filter (fun e =>
          ((normalizeNodes rawNodes).map GenNode.id).contains e.source &&
          ((normalizeNodes rawNodes).map GenNode.id).contains e.target)).map
            (fun e => (e.source, e.target)) ∨
      (validateEdges ((normalizeNodes rawNodes).map GenNode.id) rawEdges = [] ∧
        1 < (normalizeNodes rawNodes).length ∧
        (generateWorkflowResponse rawNodes rawEdges).2 = fallbackEdges (normalizeNodes rawNodes))) ∧
    (validateEdges ((normalizeNodes rawNodes).map GenNode.id) rawEdges = [] →
      1 < (normalizeNodes rawNodes).length →
      (generateWorkflowResponse rawNodes rawEdges).2.map (fun e => (e.source, e.target)) =
        ((normalizeNodes rawNodes).map GenNode.id).zip
          (((normalizeNodes rawNodes).map GenNode.id).tail)) := by
  have hmemValid : ∀ e ∈ validateEdges ((normalizeNodes rawNodes).map GenNode.id) rawEdges,
      e.source ∈ (normalizeNodes rawNodes).map GenNode.id ∧
      e.target ∈ (normalizeNodes rawNodes).map GenNode.id := by
    intro e he
    simp only [validateEdges, List.mem_map] at he
    obtain ⟨p, hp, rfl⟩ := he
    have hmem := List.snd_mem_of_mem_enum hp
    have hfil := List.of_mem_filter hmem
    simp only [Bool.and_eq_true] at hfil
    exact ⟨List.elem_iff.mp hfil.1, List.elem_iff.mp hfil.2⟩
  have hmemFallback : ∀ e ∈ fallbackEdges (normalizeNodes rawNodes),
      e.source ∈ (normalizeNodes rawNodes).map GenNode.id ∧
      e.target ∈ (normalizeNodes rawNodes).map GenNode.id := by
    intro e he
    simp only [fallbackEdges, List.mem_map] at he
    obtain ⟨p, hp, rfl⟩ := he
    have hmem := List.snd_mem_of_mem_enum hp
    have hzip := List.of_mem_zip hmem
    constructor
    · exact List.mem_map_of_mem GenNode.id hzip.1
    · exact List.mem_map_of_mem GenNode.id (List.mem_of_mem_tail hzip.2)
  by_cases hcond : (validateEdges ((normalizeNodes rawNodes).map GenNode.id) rawEdges).isEmpty
      = true ∧ 1 < (normalizeNodes rawNodes).length
  · have hout : (generateWorkflowResponse rawNodes rawEdges).2 =
        fallbackEdges (normalizeNodes rawNodes) := by
      simp [generateWorkflowResponse, generateWorkflowEdges, hcond.1, hcond.2]
    refine ⟨?_, Or.inr ⟨List.isEmpty_iff.mp hcond.1, hcond.2, hout⟩, ?_⟩
    · intro e he
      rw [hout] at he
      exact hmemFallback e he
    · intro _ _
      rw [hout, fallbackEdges_pairs]
  · have hout : (generateWorkflowResponse rawNodes rawEdges).2 =
        validateEdges ((normalizeNodes rawNodes).map GenNode.id) rawEdges := by
      simp only [generateWorkflowResponse, generateWorkflowEdges]
      rw [if_neg]
      simpa [Bool.and_eq_true, decide_eq_true_iff] using hcond
    refine ⟨?_, Or.inl ?_, ?_⟩
    · intro e he
      rw [hout] at he
      exact hmemValid e he
    · rw [hout]
      exact validateEdges_pairs _ _
    · intro hempty hlen
      exact absurd ⟨List.isEmpty_iff.mpr hempty, hlen⟩ hcond

/-!  Witnesses: concrete instantiations of the claim theorems. -/

/-- Witness for C1: on the chain `A -> B` the first Step is A's; on a
self-loop graph the run errors with empty steps. -/
theorem C1_witness :
    ((executeWorkflow defaultImpl [[ModelResponse.msg (some "o") []], []] "in"
        [cNodeA, cNodeB] [cEdgeAB] "x").1.state.steps.head?.map AgentStep.nodeId =
      some "A") ∧
    ((executeWorkflow defaultImpl [] "in" [cNodeA] [cEdgeAA] "x").1.state.steps = [] ∧
      (executeWorkflow defaultImpl [] "in" [cNodeA] [cEdgeAA] "x").1.state.status =
        ExecStatus.error) := by
  constructor
  · obtain ⟨s, t, hst, hid⟩ :=
      (C1_entry_selection defaultImpl [[ModelResponse.msg (some "o") []], []] "in"
        [cNodeA, cNodeB] [cEdgeAB] "x").1 cNodeA rfl
    rw [hst]
    simp [hid, cNodeA]
  · have h := (C1_entry_selection defaultImpl [] "in" [cNodeA] [cEdgeAA] "x").2 rfl
    exact ⟨h.1, h.2.2.1⟩

/-- Witness for C2: a single edgeless node completes with its Step's output
as `finalOutput`. -/
theorem C2_witness :
    (executeWorkflow defaultImpl [[ModelResponse.msg (some "hi") []]] "in"
        [cNodeA] [] "x").1.state.finalOutput = some "hi" ∧
    (executeWorkflow defaultImpl [[ModelResponse.msg (some "hi") []]] "in"
        [cNodeA] [] "x").1.state.status = ExecStatus.completed := by
  have h := C2_terminal_step defaultImpl [[ModelResponse.msg (some "hi") []]] "in"
    [cNodeA] [] "x" (stepDone (mkStep 0 cNodeA "in") "hi" []) (by decide) rfl rfl
  exact ⟨h.2.1, h.2.2⟩

/-- Witness for C3 (amended): a script with one succeeding and one failing
tool request logs exactly the succeeding call. -/
theorem C3_witness :
    callLLM defaultImpl
        [ModelResponse.msg none [{ id := "c1", name := "web_search", arguments := "a" },
           { id := "c2", name := "nope", arguments := "b" }],
         ModelResponse.msg (some "fin") []] "p" =
      Except.ok
        { content := "fin"
          toolCalls := [{ name := "web_search", arguments := "a",
                          result := "result of web_search" }]
          messages := [ChatMessage.system systemPrompt, ChatMessage.user "p",
            ChatMessage.assistant none
              [{ id := "c1", name := "web_search", arguments := "a" },
               { id := "c2", name := "nope", arguments := "b" }],
            ChatMessage.tool "c1" "result of web_search",
            ChatMessage.tool "c2" toolFailureContent]
          callsUsed := 2 } ∧
    [{ name := "web_search", arguments := "a", result := "result of web_search" }] =
      expectedToolCallLog defaultImpl
        [ModelResponse.msg none [{ id := "c1", name := "web_search", arguments := "a" },
           { id := "c2", name := "nope", arguments := "b" }],
         ModelResponse.msg (some "fin") []] := by
  refine ⟨rfl, ?_⟩
  have h := C3_tool_call_log defaultImpl
    [ModelResponse.msg none [{ id := "c1", name := "web_search", arguments := "a" },
       { id := "c2", name := "nope", arguments := "b" }],
     ModelResponse.msg (some "fin") []] "p"
    { content := "fin"
      toolCalls := [{ name := "web_search", arguments := "a",
                      result := "result of web_search" }]
      messages := [ChatMessage.system systemPrompt, ChatMessage.user "p",
        ChatMessage.assistant none
          [{ id := "c1", name := "web_search", arguments := "a" },
           { id := "c2", name := "nope", arguments := "b" }],
        ChatMessage.tool "c1" "result of web_search",
        ChatMessage.tool "c2" toolFailureContent]
      callsUsed := 2 } rfl
  exact h.1

/-- Witness for C4 (amended): in the failing two-node run, the state ends
`error` with the captured message and both Steps are error-marked with it. -/
theorem C4_witness :
    c4run.1.state.status = ExecStatus.error ∧
    c4run.1.state.error = some "boom" ∧
    (∀ s ∈ c4run.1.state.steps, s.status = StepStatus.error ∧ s.error = some "boom") := by
  have h := C4_error_containment defaultImpl
    [[ModelResponse.msg (some "outA") []], [ModelResponse.failure "boom"]] "in"
    [cNodeA, cNodeB] [cEdgeAB] "x" "boom" rfl
  exact ⟨h.1, h.2.1, h.2.2.1⟩

/-- Witness for C6: an unregistered tool name is absorbed and the loop
returns the next final answer. -/
theorem C6_witness :
    callLLM defaultImpl
        [ModelResponse.msg none [{ id := "c9", name := "imaginary", arguments := "a" }],
         ModelResponse.msg (some "ans") []] "p" =
      Except.ok
        { content := "ans"
          toolCalls := []
          messages := [ChatMessage.system systemPrompt, ChatMessage.user "p",
            ChatMessage.assistant none
              [{ id := "c9", name := "imaginary", arguments := "a" }],
            ChatMessage.tool "c9" toolFailureContent]
          callsUsed := 2 } := by
  have h := C6_unknown_tool defaultImpl "p" "c9" "imaginary" "a" none
    [ModelResponse.msg (some "ans") []] rfl
  simpa [orDefault] using h.2 "ans" rfl

/-- Witness for C7: a terminal node whose model answer is empty completes
with the sentinel output. -/
theorem C7_witness :
    (executeNode defaultImpl [cNodeA] [] [[ModelResponse.msg none []]] cNodeA "in"
        ⟨{ initialState "x" with status := ExecStatus.running },
         [{ initialState "x" with status := ExecStatus.running }]⟩).2 =
      Except.ok noResponseSentinel := by
  exact ((C7_missing_answer defaultImpl [] [] 0 [] [cNodeA] [] cNodeA "in"
    ⟨{ initialState "x" with status := ExecStatus.running },
     [{ initialState "x" with status := ExecStatus.running }]⟩).2.2 rfl).1

/-- Witness for C8: on a one-node run the last event is the final snapshot
with `done` and status `completed`. -/
theorem C8_witness :
    eventDone (SSEEvent.final (executeWorkflow defaultImpl
        [[ModelResponse.msg (some "hi") []]] "in" [cNodeA] [] "x").1.state) = true ∧
    (executeWorkflow defaultImpl [[ModelResponse.msg (some "hi") []]] "in"
        [cNodeA] [] "x").1.state.status = ExecStatus.completed := by
  have h := (C8_event_stream defaultImpl [[ModelResponse.msg (some "hi") []]] "in"
      [cNodeA] [] "x").2.2.2
    (SSEEvent.final (executeWorkflow defaultImpl [[ModelResponse.msg (some "hi") []]] "in"
      [cNodeA] [] "x").1.state) (by decide)
  exact ⟨h.1, (h.2.1 "hi" rfl).2⟩

/-- Witness for C9 (amended): on a well-formed one-node run the completed
final state carries a `finalOutput`. -/
theorem C9_witness :
    (executeWorkflow defaultImpl [[ModelResponse.msg (some "hi") []]] "in"
        [cNodeA] [] "x").1.state.finalOutput.isSome = true := by
  have h := (C9_finalOutput_invariant defaultImpl [[ModelResponse.msg (some "hi") []]] "in"
      [cNodeA] [] "x").2.2 (by simp)
  exact h.2.mpr rfl

/-- Witness for C10: a response whose only raw edge dangles gets the
sequential fallback chain `n1 -> n2`. -/
theorem C10_witness :
    (generateWorkflowResponse c10nodes c10edges).2.map (fun e => (e.source, e.target)) =
      [("n1", "n2")] := by
  have h := (C10_edge_validation c10nodes c10edges).2.2 rfl (by decide)
  rw [h]
  rfl

/-- Witness for C5: with two outgoing edges `A -> B` (first) and `A -> C`
(second), the run visits A then B — C is never executed — and the last
Step's node has no outgoing edges. -/
theorem C5_witness :
    ((executeWorkflow defaultImpl
        [[ModelResponse.msg (some "o1") []], [ModelResponse.msg (some "o2") []]] "in"
        [cNodeA, cNodeB, cNodeC] [cEdgeAB, cEdgeAC] "x").1.state.steps.map AgentStep.nodeId =
      ["A", "B"]) ∧
    [cEdgeAB, cEdgeAC].filter (fun e =>
      e.source == (stepDone (mkStep 1 cNodeB "o1") "o2" []).nodeId) = [] := by
  refine ⟨rfl, ?_⟩
  exact (C5_first_edge_routing defaultImpl
      [[ModelResponse.msg (some "o1") []], [ModelResponse.msg (some "o2") []]] "in"
      [cNodeA, cNodeB, cNodeC] [cEdgeAB, cEdgeAC] "x").2 "o2" rfl (by decide)
    (stepDone (mkStep 1 cNodeB "o1") "o2" []) rfl
